import Mathlib

/-!
Shallow embedding of the reactive cluster-transport core of the xolotl
1-D solver: the trap-mutation operator and its Jacobian emission, the
1-D residual assembly loop (boundary rows and temperature caching), the
surface-movement / bubble-bursting event controller, the PSI super
cluster moment reconstruction, and the negative-concentration monitor.

Real-valued quantities are modelled over `ℚ`; machine floating point is
out of scope, the algebraic structure of every operation is kept exactly
as in the source.
-/

namespace Xolotl

/-- Pointwise store into an id-indexed concentration buffer: the function
that agrees with `f` everywhere except at `i`, where it returns `v`. -/
def updateAt (f : ℕ → ℚ) (i : ℕ) (v : ℚ) : ℕ → ℚ :=
  fun j => if j = i then v else f j

/-- Read `grid[i]` from the depth grid (out-of-range reads default to 0). -/
def gridAt (g : List ℚ) (i : ℕ) : ℚ := g.getD i 0

/-! ## PSI super cluster moment reconstruction (PSISuperCluster.h) -/

/-- Moment data of a PSI super cluster, from `PSISuperCluster.h`:
mean He and V numbers, section widths, and the moments `l0`, `l1He`, `l1V`. -/
structure PSISuperCluster where
  numHe : ℚ
  numV : ℚ
  sectionHeWidth : ℤ
  sectionVWidth : ℤ
  l0 : ℚ
  l1He : ℚ
  l1V : ℚ

/-- `PSISuperCluster::getConcentration(distHe, distV)`:
`l0 + (distHe * l1He) + (distV * l1V)`. -/
def PSISuperCluster.getConcentration (c : PSISuperCluster) (distHe distV : ℚ) : ℚ :=
  c.l0 + distHe * c.l1He + distV * c.l1V

/-- `PSISuperCluster::getHeDistance(he)`:
`(sectionHeWidth == 1) ? 0 : 2 * (he - numHe) / (sectionHeWidth - 1)`. -/
def PSISuperCluster.getHeDistance (c : PSISuperCluster) (he : ℤ) : ℚ :=
  if c.sectionHeWidth = 1 then 0
  else 2 * ((he : ℚ) - c.numHe) / ((c.sectionHeWidth : ℚ) - 1)

/-- `PSISuperCluster::getVDistance(v)`:
`(sectionVWidth == 1) ? 0 : 2 * (v - numV) / (sectionVWidth - 1)`. -/
def PSISuperCluster.getVDistance (c : PSISuperCluster) (v : ℤ) : ℚ :=
  if c.sectionVWidth = 1 then 0
  else 2 * ((v : ℚ) - c.numV) / ((c.sectionVWidth : ℚ) - 1)

/-- Spec-side per-axis distance, written from the spec's words:
`d_axis(n) = 2(n - mean_axis)/(width_axis - 1)` and `0` if the width is 1. -/
def specAxisDistance (mean : ℚ) (width : ℤ) (n : ℤ) : ℚ :=
  if width = 1 then 0 else 2 * ((n : ℚ) - mean) / ((width : ℚ) - 1)

/-- Spec-side reconstruction of the super cluster concentration at the
lattice point `(he, v)`: `C_super(he,v) = l0 + d_he(he)*l1He + d_v(v)*l1V`. -/
def specReconstruction (c : PSISuperCluster) (he v : ℤ) : ℚ :=
  c.l0 + specAxisDistance c.numHe c.sectionHeWidth he * c.l1He
    + specAxisDistance c.numV c.sectionVWidth v * c.l1V

/-! ## Negative-concentration monitor (Monitor1D.cpp, checkNegative1D) -/

/-- One entry of the `checkNegative1D` clamp: a value strictly between 0 and
the threshold becomes the threshold; a value strictly between minus the
threshold and 0 becomes minus the threshold; anything else is unchanged. -/
def clampLowConcentration (thr : ℚ) (c : ℚ) : ℚ :=
  if c < thr ∧ c > 0 then thr
  else if c > -thr ∧ c < 0 then -thr
  else c

/-- The full `checkNegative1D` pass over the local grid: the clamp applied
to every concentration entry of every grid point; the monitor then returns
normally (return code 0, non-fatal). -/
def checkNegative1D (thr : ℚ) (sol : List (List ℚ)) : List (List ℚ) :=
  sol.map fun row => row.map (clampLowConcentration thr)

/-- Threshold resolution in `setupPetsc1DMonitor`: the value of the
`-check_negative` option when given, `1.0e-30` otherwise. -/
def negThresholdOf (opt : Option ℚ) : ℚ := opt.getD (1 / 10 ^ 30)

/-! ## 1-D residual assembly (PetscSolver1DHandler.cpp, updateConcentration) -/

/-- Grid extent data of the 1-D handler: total grid size `Mx`, the surface
position, and the locally owned range `[xs, xs + xm)`. -/
structure AssemblyGrid where
  xSize : ℕ
  surfacePosition : ℕ
  xs : ℕ
  xm : ℕ

/-- Boundary test of the assembly loops:
`xi <= surfacePosition || xi == xSize - 1`. -/
def isBoundaryPoint (p : AssemblyGrid) (xi : ℕ) : Bool :=
  decide (xi ≤ p.surfacePosition) || decide (xi = p.xSize - 1)

/-- One residual row of `updateConcentration`.  On a boundary point the row
is `1.0 * concentration` entrywise and the loop continues; on an interior
point the flux, diffusion, advection, trap-mutation and reaction handlers
are composed (their implementations live outside this translation unit and
enter as the parameter `interiorTerms`). -/
def updateConcRow (p : AssemblyGrid) (interiorTerms : ℕ → List ℚ → List ℚ)
    (concs : ℕ → List ℚ) (xi : ℕ) : List ℚ :=
  if isBoundaryPoint p xi then (concs xi).map fun c => 1 * c
  else interiorTerms xi (concs xi)

/-- Modelled from the spec: `xolotlCore::equal` (MathUtils, not among the
sources) compares the temperature to the cached one; the spec fixes the
tolerance at `1e-12` ("T unchanged to within 1e-12 must not trigger rate
recomputation"). -/
def temperatureEqual (a b : ℚ) : Bool := decide (|a - b| ≤ 1 / 10 ^ 12)

/-- One grid point of the temperature-update part of `updateConcentration`:
boundary points are skipped wholesale; at an interior point, when the
temperature differs from the cached `lastTemperature` beyond tolerance,
`network.setTemperature` and `updateTrapMutationRate` run (counted) and
the cache is overwritten.  The state is `(lastTemperature, call count)`. -/
def temperatureStep (p : AssemblyGrid) (temperature : ℕ → ℚ) (st : ℚ × ℕ)
    (xi : ℕ) : ℚ × ℕ :=
  if isBoundaryPoint p xi then st
  else if temperatureEqual (temperature xi) st.1 then st
  else (temperature xi, st.2 + 1)

/-- The temperature handling of one full `updateConcentration` pass over the
locally owned points `xs, xs+1, …, xs+xm-1`, starting from the cached
temperature `last0` and a call count of zero. -/
def temperatureSweep (p : AssemblyGrid) (temperature : ℕ → ℚ) (last0 : ℚ) : ℚ × ℕ :=
  (List.range' p.xs p.xm).foldl (temperatureStep p temperature) (last0, 0)

/-! ## Event controller (Monitor1D.cpp, eventFunction1D / postEventFunction1D) -/

/-- Inputs of the surface-movement part of `eventFunction1D`: the surface
position, the grid, the counters, the flux data, and per interstitial
cluster its size, diffusion coefficient and concentration at the first
interior point. -/
structure SurfaceEventIn where
  surfacePos : ℕ
  grid : List ℚ
  initialVConc : ℚ
  nInterstitial : ℚ
  previousIFlux : ℚ
  sputteringYield : ℚ
  fluxAmplitude : ℚ
  dt : ℚ
  iClusters : List (ℕ × ℚ × ℚ)

/-- The updated interstitial counter:
`nInterstitial + previousIFlux*dt - sputteringYield*fluxAmplitude*dt`. -/
def updatedNInterstitial (p : SurfaceEventIn) : ℚ :=
  p.nInterstitial + p.previousIFlux * p.dt - p.sputteringYield * p.fluxAmplitude * p.dt

/-- The density threshold `(62.8 - initialVConc) * (grid[xi+1] - grid[xi])`
at the first interior point `xi = surfacePos + 1` (62.8 atoms/nm3 is the
density of tungsten). -/
def densityThreshold (p : SurfaceEventIn) : ℚ :=
  (314 / 5 - p.initialVConc)
    * (gridAt p.grid (p.surfacePos + 2) - gridAt p.grid (p.surfacePos + 1))

/-- The interstitial efflux into the surface recomputed by the event
function: the sum over I clusters of `size * factor * coef * conc * hxLeft`
with `factor = 2 / (hxLeft * (hxLeft + hxRight))`. -/
def newInterstitialFlux (p : SurfaceEventIn) : ℚ :=
  let hxLeft := gridAt p.grid (p.surfacePos + 2) - gridAt p.grid (p.surfacePos + 1)
  let hxRight := gridAt p.grid (p.surfacePos + 3) - gridAt p.grid (p.surfacePos + 2)
  (p.iClusters.map fun c =>
    (c.1 : ℚ) * (2 / (hxLeft * (hxLeft + hxRight))) * c.2.1 * c.2.2 * hxLeft).sum

/-- The two surface switches: `fvalue[0] = 0` when the updated counter
exceeds the threshold, else `fvalue[1] = 0` when it is below
`-threshold/10`, else both stay at their initial value 1. -/
def surfaceSwitches (p : SurfaceEventIn) : ℚ × ℚ :=
  if updatedNInterstitial p > densityThreshold p then (0, 1)
  else if updatedNInterstitial p < -densityThreshold p / 10 then (1, 0)
  else (1, 1)

/-- Inputs of the whole event function.  `burstAt xi` is the per-point
burst decision — `radius > distance` or the probability draw against the
PRNG succeeded; the radius involves machine `cbrt`/`sqrt` and the draw a
PRNG, so the decision enters the embedding as an oracle. -/
structure EventIn where
  moveSurface : Bool
  burstBubbles : Bool
  surface : SurfaceEventIn
  Mx : ℕ
  burstAt : ℕ → Bool

/-- The bursting scan of `eventFunction1D`: every grid point of the full
grid not strictly before the surface whose burst decision fired is
recorded in `depthPositions1D`. -/
def depthPositions (p : EventIn) : List ℕ :=
  (List.range p.Mx).filter fun xi =>
    decide (p.surface.surfacePos ≤ xi) && p.burstAt xi

/-- Outputs of the event function: the three switches (initialized to 1.0,
set to 0.0 when the corresponding event fires), the recorded bursting
depths, and the updated counters. -/
structure EventOut where
  f0 : ℚ
  f1 : ℚ
  f2 : ℚ
  depths : List ℕ
  nInterstitial : ℚ
  previousIFlux : ℚ

/-- `eventFunction1D`: the surface part runs when the moving surface is
enabled, the bursting part when bursting is enabled; the two parts are
independent. -/
def eventFunction1D (p : EventIn) : EventOut :=
  let sw := if p.moveSurface then surfaceSwitches p.surface else (1, 1)
  let nI := if p.moveSurface then updatedNInterstitial p.surface
            else p.surface.nInterstitial
  let pf := if p.moveSurface then newInterstitialFlux p.surface
            else p.surface.previousIFlux
  let depths := if p.burstBubbles then depthPositions p else []
  let f2 : ℚ := if p.burstBubbles && !(depthPositions p).isEmpty then 0 else 1
  ⟨sw.1, sw.2, f2, depths, nI, pf⟩

/-- The number of fired events the integrator reports to the post-event
handler: the number of switches returned at zero. -/
def firedCount (o : EventOut) : ℕ :=
  (if o.f0 = 0 then 1 else 0) + (if o.f1 = 0 then 1 else 0)
    + (if o.f2 = 0 then 1 else 0)

/-- The guard at the top of `postEventFunction1D`: it throws exactly when
all three events fired (`nevents == 3`). -/
def postEventThrows (nevents : ℕ) : Bool := decide (nevents = 3)

/-! ## Moving-up surface post-event loop (Monitor1D.cpp, postEventFunction1D) -/

/-- The moving-up loop of `postEventFunction1D` as compiled: the inner
`double threshold = …` declares a new local that shadows the outer
`threshold` and is never read, so by C++ scoping the loop condition and
the decrement both use the threshold computed once before the loop.
State: `(surfacePos, nInterstitial, nGridPoints)`; the first argument is
recursion fuel (the concrete runs below use enough of it). -/
def movingUpLoop : ℕ → ℚ → ℤ → ℚ → ℕ → ℤ × ℚ × ℕ
  | 0, _, surfacePos, nI, n => (surfacePos, nI, n)
  | fuel + 1, threshold, surfacePos, nI, n =>
    if nI > threshold then
      movingUpLoop fuel threshold (surfacePos - 1) (nI - threshold) (n + 1)
    else (surfacePos, nI, n)

/-- Modelled from the spec: the intended moving-up loop, with the density
threshold recomputed for the current surface position at every iteration
("the surface is advanced … until `nInterstitial` falls below the next
threshold"). -/
def movingUpSpecLoop (grid : List ℚ) (initialVConc : ℚ) :
    ℕ → ℤ → ℚ → ℕ → ℤ × ℚ × ℕ
  | 0, surfacePos, nI, n => (surfacePos, nI, n)
  | fuel + 1, surfacePos, nI, n =>
    let threshold := (314 / 5 - initialVConc)
      * (gridAt grid (surfacePos + 2).toNat - gridAt grid (surfacePos + 1).toNat)
    if nI > threshold then
      movingUpSpecLoop grid initialVConc fuel (surfacePos - 1) (nI - threshold) (n + 1)
    else (surfacePos, nI, n)

/-- A nonuniform depth grid exercising the moving-up loop. -/
def demoGrid : List ℚ := [0, 1, 2, 3, 5, 9]

/-! ## Modified trap-mutation (W110TrapMutationHandler and its caller)

The material trap-mutation handler implementation (`TrapMutationHandler.cpp`)
is not among the sources — only its regression test and its caller
`PetscSolver1DHandler.cpp` are — so the handler is modelled from the spec
(§4.D) and instantiated from the regression test's data. -/

/-- One firing rule resolved at a grid point: the dense ids of the
mutating He cluster and of its product HeV cluster, and the rate `k_tm`. -/
structure TrapMutationRule where
  heId : ℕ
  heVId : ℕ
  rate : ℚ

/-- Modelled from the spec: the trap-mutation handler after
initialization — the id of the single interstitial cluster and, per grid
point, the list of He cluster sizes with a nonzero rule at that point's
depth bucket (deeper points map to the empty list). -/
structure TrapMutationHandlerM where
  iId : ℕ
  rulesAt : ℕ → List TrapMutationRule

/-- One firing of `computeTrapMutation`: with `flux = k_tm * C(He_s)`,
subtract `flux` from `out[He_s]` and add `flux` to both `out[HeV_{s,v}]`
and `out[I]`, sequentially on the output buffer. -/
def tmStep (iId : ℕ) (conc : ℕ → ℚ) (o : ℕ → ℚ) (r : TrapMutationRule) : ℕ → ℚ :=
  let flux := r.rate * conc r.heId
  let o1 := updateAt o r.heId (o r.heId - flux)
  let o2 := updateAt o1 r.heVId (o1 r.heVId + flux)
  updateAt o2 iId (o2 iId + flux)

/-- Modelled from the spec: `computeTrapMutation(network, xi, conc, out)`
applies every rule firing at `xi` to the output buffer. -/
def computeTrapMutation (h : TrapMutationHandlerM) (xi : ℕ) (conc : ℕ → ℚ)
    (out : ℕ → ℚ) : ℕ → ℚ :=
  (h.rulesAt xi).foldl (tmStep h.iId conc) out

/-- The pointwise contribution of one firing to the output buffer entry
`x` (the sequential three-store step adds exactly this at every entry). -/
def ruleDelta (iId : ℕ) (conc : ℕ → ℚ) (r : TrapMutationRule) (x : ℕ) : ℚ :=
  (if x = r.heVId then r.rate * conc r.heId else 0)
    + (if x = iId then r.rate * conc r.heId else 0)
    - (if x = r.heId then r.rate * conc r.heId else 0)

/-- Modelled from the spec: `computePartialsForTrapMutation(network, val,
indices, xi)` fills, per mutating He cluster, the index triple
`(He, HeV, I)` and the value triple `(-k_tm, +k_tm, +k_tm)`, and returns
the number of mutating clusters. -/
def computePartialsForTrapMutation (h : TrapMutationHandlerM) (xi : ℕ) :
    List ℕ × List ℚ × ℕ :=
  ((h.rulesAt xi).flatMap fun r => [r.heId, r.heVId, h.iId],
   (h.rulesAt xi).flatMap fun r => [-r.rate, r.rate, r.rate],
   (h.rulesAt xi).length)

/-- The Jacobian stamping loop of `computeDiagonalJacobian`
(PetscSolver1DHandler.cpp): for each mutating cluster `i` it consumes the
index triple `indices[3i..3i+2]` and the value triple `val[3i..3i+2]`,
emitting three entries `(row, col, value)` whose column is always the He
index `indices[3i]`. -/
def stampTrapMutation : List ℕ → List ℚ → ℕ → List (ℕ × ℕ × ℚ)
  | i0 :: i1 :: i2 :: ri, v0 :: v1 :: v2 :: rv, n + 1 =>
    (i0, i0, v0) :: (i1, i0, v1) :: (i2, i0, v2) :: stampTrapMutation ri rv n
  | _, _, _ => []

/-- Well-formedness of the rules firing at a grid point, as guaranteed by
the network: He ids pairwise distinct, HeV ids pairwise distinct, no He id
is a HeV id, and the interstitial id is neither. -/
def TrapMutationWF (h : TrapMutationHandlerM) (xi : ℕ) : Prop :=
  ((h.rulesAt xi).map TrapMutationRule.heId).Nodup
  ∧ ((h.rulesAt xi).map TrapMutationRule.heVId).Nodup
  ∧ (∀ r ∈ h.rulesAt xi, ∀ q ∈ h.rulesAt xi, r.heId ≠ q.heVId)
  ∧ (∀ r ∈ h.rulesAt xi, h.iId ≠ r.heId ∧ h.iId ≠ r.heVId)

/-- Modelled from the spec: the trap-mutation rate of the W110 handler at
1000 K, `9.67426e13`, taken from the regression expectations. -/
def w110Rate1000 : ℚ := 967426 * 10 ^ 8

/-- Modelled from the spec: the rules firing at grid point 1 of the W110
regression configuration (He sizes 3..7; the tester pins He3 at id 8,
He3V at id 17, He5 at id 10, He8 at id 13, He8V at id 22, and the
partial-derivative indices `{8,17,0}` and `{11,20,0}`). -/
def w110Gp1Rules : List TrapMutationRule :=
  [⟨8, 17, w110Rate1000⟩, ⟨9, 18, w110Rate1000⟩, ⟨10, 19, w110Rate1000⟩,
   ⟨11, 20, w110Rate1000⟩, ⟨12, 21, w110Rate1000⟩]

/-- Modelled from the spec: the W110 handler of the regression test at
1000 K; the interstitial cluster has id 0. -/
def w110Handler : TrapMutationHandlerM :=
  ⟨0, fun xi => if xi = 1 then w110Gp1Rules else []⟩

/-! ## Bursting post-event state mutation (Monitor1D.cpp, postEventFunction1D) -/

/-- A PSIMixed (HeV) cluster: its dense id and its vacancy count. -/
structure MixedClusterB where
  id : ℕ
  vSize : ℕ

/-- A PSI super cluster as the bursting handler sees it: its dense id, its
four moment ids, and its V-axis bounds. -/
structure SuperClusterB where
  id : ℕ
  momentIds : List ℕ
  vBounds : List ℕ

/-- The network data the bursting part of `postEventFunction1D` consults:
the He/D/T cluster ids, the PSIMixed clusters, the PSI super clusters, the
id of the V cluster of each size, and `getIntegratedVConcentration`.  The
latter's implementation is in `PSISuperCluster.cpp`, not among the
sources; it reads the network's copy of the concentrations — the snapshot
taken by `updateConcentrationsFromArray` before any write — so it enters
the embedding as a function of that snapshot, the super cluster id and the
vacancy number. -/
structure BurstNetwork where
  heIds : List ℕ
  dIds : List ℕ
  tIds : List ℕ
  mixed : List MixedClusterB
  supers : List SuperClusterB
  vId : ℕ → ℕ
  integratedV : (ℕ → ℚ) → ℕ → ℕ → ℚ

/-- Zero a list of concentration entries in order. -/
def zeroIds (ids : List ℕ) (s : ℕ → ℚ) : ℕ → ℚ :=
  ids.foldl (fun s i => updateAt s i 0) s

/-- The PSIMixed transfer loop over an explicit cluster list: each HeV
cluster's concentration is added to the V cluster of its vacancy count and
then zeroed. -/
def transferMixedAux (vId : ℕ → ℕ) (l : List MixedClusterB) (s : ℕ → ℚ) : ℕ → ℚ :=
  l.foldl (fun s c =>
    updateAt (updateAt s (vId c.vSize) (s (vId c.vSize) + s c.id)) c.id 0) s

/-- The V-bounds loop of one super cluster: for every `j` in the V bounds,
the integrated V concentration at `j` (a value of the snapshot, packaged
in `addV`) is added to the V cluster of size `j`. -/
def vBoundsFoldAux (vId : ℕ → ℕ) (addV : ℕ → ℚ) (vb : List ℕ) (s : ℕ → ℚ) : ℕ → ℚ :=
  vb.foldl (fun s j => updateAt s (vId j) (s (vId j) + addV j)) s

/-- The super cluster loop over an explicit list: per cluster, the V-bounds
transfer, then the cluster concentration and its four moments are zeroed. -/
def transferSuperAux (vId : ℕ → ℕ) (integr : ℕ → ℕ → ℚ)
    (l : List SuperClusterB) (s : ℕ → ℚ) : ℕ → ℚ :=
  l.foldl (fun s sc =>
    zeroIds (sc.id :: sc.momentIds) (vBoundsFoldAux vId (integr sc.id) sc.vBounds s)) s

/-- The bursting treatment of one recorded depth: zero every He, D and T
cluster, transfer every PSIMixed cluster to its same-size V cluster, then
process the super clusters against the snapshot `s0`. -/
def burstPoint (net : BurstNetwork) (s0 : ℕ → ℚ) : ℕ → ℚ :=
  let s1 := zeroIds net.heIds s0
  let s2 := zeroIds net.dIds s1
  let s3 := zeroIds net.tIds s2
  let s4 := transferMixedAux net.vId net.mixed s3
  transferSuperAux net.vId (net.integratedV s0) net.supers s4

/-- The bursting loop of `postEventFunction1D` over the whole grid: each
recorded bursting depth is treated in order; rows of other grid points are
not touched. -/
def burstHandler (net : BurstNetwork) (depths : List ℕ)
    (sol : ℕ → ℕ → ℚ) : ℕ → ℕ → ℚ :=
  depths.foldl (fun sol xi => fun x => if x = xi then burstPoint net (sol xi) else sol x) sol

/-- All ids the bursting handler writes other than V-cluster ids. -/
def nonVTouched (net : BurstNetwork) : List ℕ :=
  net.heIds ++ net.dIds ++ net.tIds ++ net.mixed.map MixedClusterB.id
    ++ net.supers.flatMap fun sc => sc.id :: sc.momentIds

/-- Well-formedness of the network for the bursting handler: distinct ids
across all written non-V clusters, one V cluster per size (`vId`
injective), and no V-cluster id collides with a written non-V id. -/
def BurstWF (net : BurstNetwork) : Prop :=
  (nonVTouched net).Nodup ∧ Function.Injective net.vId
    ∧ ∀ k, net.vId k ∉ nonVTouched net

/-- The total PSIMixed concentration previously held at vacancy count `k`. -/
def mixedVSum (net : BurstNetwork) (s0 : ℕ → ℚ) (k : ℕ) : ℚ :=
  ((net.mixed.filter fun c => c.vSize = k).map fun c => s0 c.id).sum

/-- The total integrated V-axis super cluster concentration at `k`. -/
def superVSum (net : BurstNetwork) (s0 : ℕ → ℚ) (k : ℕ) : ℚ :=
  (net.supers.map fun sc =>
    ((sc.vBounds.filter fun j => j = k).map fun j => net.integratedV s0 sc.id j).sum).sum

/-- A concrete event-function input: surface movement and bursting both
enabled, the interstitial counter above the density threshold, and the
burst decision firing at every point. -/
def demoEvent : EventIn :=
  ⟨true, true, ⟨0, [0, 1, 2, 3], 0, 100, 0, 0, 0, 0, []⟩, 2, fun _ => true⟩

/-- A concrete small network exercising the bursting handler. -/
def demoBurstNet : BurstNetwork where
  heIds := [1]
  dIds := [2]
  tIds := [3]
  mixed := [⟨4, 1⟩, ⟨5, 2⟩, ⟨11, 1⟩]
  supers := [⟨6, [7, 8, 9, 10], [1, 2]⟩]
  vId := fun k => 20 + k
  integratedV := fun s0 scId k => s0 scId * (k : ℚ)

/-! ## C9: super cluster moment reconstruction -/

/-- C9: for every PSI super cluster and lattice point `(he, v)`, the
reconstructed concentration is `l0 + d_He(he)*l1He + d_V(v)*l1V` with
`d_axis(n) = 2(n - mean)/(width - 1)` (0 when the width is 1), and
evaluating the reconstruction at the mean of both axes yields exactly
`l0`, for all moments and widths. -/
theorem psiSuperReconstruction (c : PSISuperCluster) (he v : ℤ) :
    c.getConcentration (c.getHeDistance he) (c.getVDistance v) = specReconstruction c he v
    ∧ ((he : ℚ) = c.numHe → (v : ℚ) = c.numV →
        c.getConcentration (c.getHeDistance he) (c.getVDistance v) = c.l0) := by
  constructor
  · rfl
  · intro h1 h2
    simp [PSISuperCluster.getConcentration, PSISuperCluster.getHeDistance,
      PSISuperCluster.getVDistance, h1, h2]

/-- C9 witness: the reconstruction of a concrete super cluster evaluated
at the mean of both axes returns its `l0` moment. -/
theorem psiSuperReconstruction_witness :
    ((1 : ℚ) = (⟨1, 2, 3, 4, 5, 6, 7⟩ : PSISuperCluster).numHe)
    ∧ (⟨1, 2, 3, 4, 5, 6, 7⟩ : PSISuperCluster).getConcentration
        ((⟨1, 2, 3, 4, 5, 6, 7⟩ : PSISuperCluster).getHeDistance 1)
        ((⟨1, 2, 3, 4, 5, 6, 7⟩ : PSISuperCluster).getVDistance 2) = 5 :=
  ⟨rfl, (psiSuperReconstruction ⟨1, 2, 3, 4, 5, 6, 7⟩ 1 2).2 (by norm_num) (by norm_num)⟩

/-! ## C10: negative-concentration clamp -/

/-- C10 counterexample: a concentration entry equal to zero has magnitude
below the default threshold, yet the clamp leaves it at zero — it ends at
neither `+thr` nor `-thr`, contradicting the claim for that entry. -/
theorem checkNegativeZeroEntry :
    clampLowConcentration (negThresholdOf none) 0 = 0
    ∧ |(0 : ℚ)| < negThresholdOf none
    ∧ clampLowConcentration (negThresholdOf none) 0 ≠ negThresholdOf none
    ∧ clampLowConcentration (negThresholdOf none) 0 ≠ -negThresholdOf none := by
  have h : clampLowConcentration (negThresholdOf none) 0 = 0 := by
    simp [clampLowConcentration]
  have ht : negThresholdOf none = 1 / 10 ^ 30 := rfl
  refine ⟨h, ?_, ?_, ?_⟩
  · rw [ht]; norm_num
  · rw [h, ht]; norm_num
  · rw [h, ht]; norm_num

/-- C10 (amended): after one pass of the negative-concentration monitor,
every nonzero entry whose magnitude is below the threshold `thr` (default
`1e-30` when no value is given) becomes `+thr` or `-thr` according to the
sign of its previous value, zero entries and entries of magnitude at least
`thr` are unchanged, and the pass is a plain in-place map (non-fatal). -/
theorem clampLowMagnitude (thr : ℚ) (c : ℚ) :
    (0 < |c| → |c| < thr → clampLowConcentration thr c = if 0 < c then thr else -thr)
    ∧ (c = 0 ∨ thr ≤ |c| → clampLowConcentration thr c = c)
    ∧ negThresholdOf none = 1 / 10 ^ 30
    ∧ checkNegative1D thr [[c]] = [[clampLowConcentration thr c]] := by
  refine ⟨?_, ?_, rfl, rfl⟩
  · intro h0 hlt
    rcases lt_trichotomy 0 c with hpos | heq | hneg
    · rw [clampLowConcentration, if_pos ⟨by rwa [abs_of_pos hpos] at hlt, hpos⟩, if_pos hpos]
    · simp [← heq] at h0
    · have h1 : ¬(c < thr ∧ c > 0) := fun hc => absurd hc.2 (not_lt.mpr hneg.le)
      have h2 : -thr < c := by
        rw [abs_of_neg hneg] at hlt; linarith
      rw [clampLowConcentration, if_neg h1, if_pos ⟨h2, hneg⟩, if_neg (not_lt.mpr hneg.le)]
  · rintro (rfl | hge)
    · rw [clampLowConcentration]
      simp
    · rcases le_or_lt c 0 with hle | hpos
      · have h1 : ¬(c < thr ∧ c > 0) := fun hc => absurd hc.2 (not_lt.mpr hle)
        have h2 : ¬(c > -thr ∧ c < 0) := by
          rintro ⟨hgt, hneg⟩
          rw [abs_of_neg hneg] at hge
          linarith
        rw [clampLowConcentration, if_neg h1, if_neg h2]
      · have h1 : ¬(c < thr ∧ c > 0) := by
          rintro ⟨hlt, _⟩
          rw [abs_of_pos hpos] at hge
          linarith
        have h2 : ¬(c > -thr ∧ c < 0) := fun hc => absurd hc.2 (not_lt.mpr hpos.le)
        rw [clampLowConcentration, if_neg h1, if_neg h2]

/-- C10 witness: the clamp at threshold 1 sends the entry 1/2 to 1. -/
theorem clampLowMagnitude_witness :
    (0 : ℚ) < |(1 / 2 : ℚ)| ∧ clampLowConcentration 1 (1 / 2) = 1 := by
  have habs : |(1 / 2 : ℚ)| = 1 / 2 := abs_of_pos (by norm_num)
  refine ⟨by rw [habs]; norm_num, ?_⟩
  have h := (clampLowMagnitude 1 (1 / 2)).1 (by rw [habs]; norm_num) (by rw [habs]; norm_num)
  simpa using h

/-! ## C3: boundary rows of the residual loop -/

/-- C3: for every grid point with `xi <= surfacePos` or `xi = Mx - 1`, the
residual row equals the concentration row componentwise, and none of the
flux, diffusion, advection, trap-mutation or reaction terms is added there
— the result does not depend on the interior-terms composition at all. -/
theorem boundaryRowIdentity (p : AssemblyGrid) (interiorTerms : ℕ → List ℚ → List ℚ)
    (concs : ℕ → List ℚ) (xi : ℕ) (h : xi ≤ p.surfacePosition ∨ xi = p.xSize - 1) :
    updateConcRow p interiorTerms concs xi = concs xi := by
  have hb : isBoundaryPoint p xi = true := by
    rcases h with h | h <;> simp [isBoundaryPoint, h]
  rw [updateConcRow, if_pos hb,
    show (fun c : ℚ => 1 * c) = id from funext fun c => one_mul c, List.map_id]

/-- C3 witness: the residual row at the boundary point 0 of a concrete
configuration is the concentration row, for an arbitrary nonzero choice of
interior terms. -/
theorem boundaryRowIdentity_witness :
    ((0 : ℕ) ≤ 1 ∨ (0 : ℕ) = 5 - 1)
    ∧ updateConcRow ⟨5, 1, 0, 5⟩ (fun _ _ => [7]) (fun _ => [1, 2]) 0 = [1, 2] :=
  ⟨Or.inl (by norm_num),
    boundaryRowIdentity ⟨5, 1, 0, 5⟩ (fun _ _ => [7]) (fun _ => [1, 2]) 0 (Or.inl (by norm_num))⟩

/-! ## C4: temperature caching in the residual loop -/

/-- Helper: the tolerance comparison accepts an unchanged temperature. -/
theorem temperatureEqual_self (T : ℚ) : temperatureEqual T T = true := by
  simp [temperatureEqual]

/-- Helper: once the cached temperature equals the uniform temperature,
the sweep never calls `setTemperature` again. -/
theorem tempSweepFix (p : AssemblyGrid) (T : ℚ) (l : List ℕ) (st : ℚ × ℕ)
    (h : st.1 = T) : l.foldl (temperatureStep p fun _ => T) st = st := by
  induction l with
  | nil => rfl
  | cons a l ih =>
    rw [List.foldl_cons]
    have hstep : temperatureStep p (fun _ => T) st a = st := by
      rw [temperatureStep]
      rcases hb : isBoundaryPoint p a with _ | _
      · rw [if_neg (by simp [hb]), if_pos (by rw [h]; exact temperatureEqual_self T)]
      · rw [if_pos (by simp [hb])]
    rw [hstep, ih]

/-- Helper: characterization of the temperature sweep under a spatially
uniform temperature. -/
theorem tempSweepChar (p : AssemblyGrid) (T last0 : ℚ) (l : List ℕ) (n : ℕ) :
    l.foldl (temperatureStep p fun _ => T) (last0, n)
      = if (l.any fun xi => !isBoundaryPoint p xi) && !temperatureEqual T last0
        then (T, n + 1) else (last0, n) := by
  induction l with
  | nil => simp
  | cons a l ih =>
    rw [List.foldl_cons]
    rcases hb : isBoundaryPoint p a with _ | _
    · rcases he : temperatureEqual T last0 with _ | _
      · have hstep : temperatureStep p (fun _ => T) (last0, n) a = (T, n + 1) := by
          rw [temperatureStep, if_neg (by simp [hb]), if_neg (by simp [he])]
        rw [hstep, tempSweepFix p T l (T, n + 1) rfl]
        simp [hb, he]
      · have hstep : temperatureStep p (fun _ => T) (last0, n) a = (last0, n) := by
          rw [temperatureStep, if_neg (by simp [hb]), if_pos (by simp [he])]
        rw [hstep, ih]
        simp [he]
    · have hstep : temperatureStep p (fun _ => T) (last0, n) a = (last0, n) := by
        rw [temperatureStep, if_pos (by simp [hb])]
      rw [hstep, ih]
      simp [hb]

/-- C4 (amended): during one `updateConcentration` pass at a spatially
uniform temperature `T`, `network.setTemperature` (with
`updateTrapMutationRate`) is called at most once: exactly once when the
local range contains an interior point and `T` differs from the cached
temperature by more than the `1e-12` tolerance, and zero times otherwise
— in particular a temperature within tolerance of the cache never
triggers rate recomputation at any grid point. -/
theorem temperatureRecomputedOnce (p : AssemblyGrid) (T last0 : ℚ) :
    (temperatureSweep p (fun _ => T) last0).2
      = (if ((List.range' p.xs p.xm).any fun xi => !isBoundaryPoint p xi)
            && !temperatureEqual T last0 then 1 else 0)
    ∧ (temperatureSweep p (fun _ => T) last0).2 ≤ 1
    ∧ (temperatureEqual T last0 = true → (temperatureSweep p (fun _ => T) last0).2 = 0) := by
  have h := tempSweepChar p T last0 (List.range' p.xs p.xm) 0
  rw [temperatureSweep] at *
  refine ⟨?_, ?_, ?_⟩
  · rw [h]; split <;> rfl
  · rw [h]; split <;> norm_num
  · intro he; rw [h, if_neg (by simp [he])]

/-! ## C8: bursting post-event state mutation -/

/-- Helper: `burstPoint` unfolded to its phase composition. -/
theorem burstPoint_def (net : BurstNetwork) (s0 : ℕ → ℚ) :
    burstPoint net s0
      = transferSuperAux net.vId (net.integratedV s0) net.supers
          (transferMixedAux net.vId net.mixed
            (zeroIds net.tIds (zeroIds net.dIds (zeroIds net.heIds s0)))) := rfl

/-- Helper: pointwise value of a zeroing fold. -/
theorem zeroIds_apply (ids : List ℕ) (s : ℕ → ℚ) (x : ℕ) :
    zeroIds ids s x = if x ∈ ids then 0 else s x := by
  induction ids generalizing s with
  | nil => simp [zeroIds]
  | cons i ids ih =>
    rw [zeroIds, List.foldl_cons,
      show List.foldl _ _ ids = zeroIds ids (updateAt s i 0) from rfl, ih]
    by_cases hx : x = i
    · subst hx
      simp [updateAt]
    · simp [updateAt, hx]

/-- Helper: the PSIMixed transfer fold does not touch entries outside the
V-cluster ids other than to zero the mixed ids themselves. -/
theorem transferMixedAux_ne (vId : ℕ → ℕ) (l : List MixedClusterB) (x : ℕ)
    (hx : ∀ k, x ≠ vId k) (s : ℕ → ℚ) :
    transferMixedAux vId l s x = if x ∈ l.map MixedClusterB.id then 0 else s x := by
  induction l generalizing s with
  | nil => simp [transferMixedAux]
  | cons c l ih =>
    rw [transferMixedAux, List.foldl_cons,
      show List.foldl _ _ l = transferMixedAux vId l _ from rfl, ih]
    by_cases hc : x = c.id
    · subst hc
      simp [updateAt]
    · have h2 : updateAt (updateAt s (vId c.vSize) (s (vId c.vSize) + s c.id)) c.id 0 x
          = s x := by
        simp [updateAt, hc, hx c.vSize]
      rw [h2]
      simp [List.mem_cons, hc]

/-- Helper: the PSIMixed transfer fold accumulates, at the V cluster of
size `k`, the concentrations of exactly the mixed clusters of vacancy
count `k`. -/
theorem transferMixedAux_v (vId : ℕ → ℕ) (hinj : Function.Injective vId)
    (l : List MixedClusterB) (k : ℕ)
    (hdisj : ∀ c ∈ l, ∀ m, vId m ≠ c.id)
    (hnd : (l.map MixedClusterB.id).Nodup) (s : ℕ → ℚ) :
    transferMixedAux vId l s (vId k)
      = s (vId k) + ((l.filter fun c => c.vSize = k).map fun c => s c.id).sum := by
  induction l generalizing s with
  | nil => simp [transferMixedAux]
  | cons c l ih =>
    have hkc : vId k ≠ c.id := hdisj c (List.mem_cons_self c l) k
    have hdisj2 : ∀ c' ∈ l, ∀ m, vId m ≠ c'.id := fun c' hc' =>
      hdisj c' (List.mem_cons_of_mem _ hc')
    have hnd2 : (l.map MixedClusterB.id).Nodup := (List.nodup_cons.mp hnd).2
    have hcnotin : c.id ∉ l.map MixedClusterB.id := (List.nodup_cons.mp hnd).1
    rw [transferMixedAux, List.foldl_cons,
      show List.foldl _ _ l = transferMixedAux vId l _ from rfl, ih hdisj2 hnd2]
    have hv2 : updateAt (updateAt s (vId c.vSize) (s (vId c.vSize) + s c.id)) c.id 0 (vId k)
        = if c.vSize = k then s (vId k) + s c.id else s (vId k) := by
      by_cases hck : c.vSize = k
      · subst hck
        simp [updateAt, hkc]
      · have hne : vId k ≠ vId c.vSize := fun he => hck (hinj he).symm
        simp [updateAt, hkc, hne, hck]
    have hid2 : ∀ c' ∈ l,
        updateAt (updateAt s (vId c.vSize) (s (vId c.vSize) + s c.id)) c.id 0 c'.id
          = s c'.id := by
      intro c' hc'
      have h1 : c'.id ≠ c.id := fun he => hcnotin (by
        rw [← he]
        exact List.mem_map_of_mem _ hc')
      have h2 : c'.id ≠ vId c.vSize := Ne.symm (hdisj2 c' hc' c.vSize)
      simp [updateAt, h1, h2]
    have hsum : ((l.filter fun c' => c'.vSize = k).map fun c' =>
          updateAt (updateAt s (vId c.vSize) (s (vId c.vSize) + s c.id)) c.id 0 c'.id).sum
        = ((l.filter fun c' => c'.vSize = k).map fun c' => s c'.id).sum := by
      congr 1
      exact List.map_congr_left fun c' hc' => hid2 c' (List.mem_of_mem_filter hc')
    rw [hv2, hsum]
    by_cases hck : c.vSize = k
    · rw [if_pos hck, List.filter_cons_of_pos (by simp [hck]), List.map_cons, List.sum_cons]
      ring
    · rw [if_neg hck, List.filter_cons_of_neg (by simp [hck])]

/-- Helper: the V-bounds fold of one super cluster is invisible outside
the V-cluster ids. -/
theorem vBoundsFoldAux_ne (vId : ℕ → ℕ) (addV : ℕ → ℚ) (vb : List ℕ) (x : ℕ)
    (hx : ∀ k, x ≠ vId k) (s : ℕ → ℚ) :
    vBoundsFoldAux vId addV vb s x = s x := by
  induction vb generalizing s with
  | nil => rfl
  | cons j vb ih =>
    rw [vBoundsFoldAux, List.foldl_cons,
      show List.foldl _ _ vb = vBoundsFoldAux vId addV vb _ from rfl, ih]
    simp [updateAt, hx j]

/-- Helper: the V-bounds fold adds, at the V cluster of size `k`, the
integrated values of exactly the bound entries equal to `k`. -/
theorem vBoundsFoldAux_v (vId : ℕ → ℕ) (hinj : Function.Injective vId) (addV : ℕ → ℚ)
    (vb : List ℕ) (k : ℕ) (s : ℕ → ℚ) :
    vBoundsFoldAux vId addV vb s (vId k)
      = s (vId k) + ((vb.filter fun j => j = k).map addV).sum := by
  induction vb generalizing s with
  | nil => simp [vBoundsFoldAux]
  | cons j vb ih =>
    rw [vBoundsFoldAux, List.foldl_cons,
      show List.foldl _ _ vb = vBoundsFoldAux vId addV vb _ from rfl, ih]
    by_cases hjk : j = k
    · subst hjk
      rw [List.filter_cons_of_pos (by simp), List.map_cons, List.sum_cons]
      simp [updateAt]
      ring
    · have hne : vId k ≠ vId j := fun he => hjk (hinj he).symm
      rw [List.filter_cons_of_neg (by simp [hjk])]
      simp [updateAt, hne]

/-- Helper: outside the V-cluster ids the super cluster fold only zeroes
the super ids and moment ids. -/
theorem transferSuperAux_ne (vId : ℕ → ℕ) (integr : ℕ → ℕ → ℚ) (l : List SuperClusterB)
    (x : ℕ) (hx : ∀ k, x ≠ vId k) (s : ℕ → ℚ) :
    transferSuperAux vId integr l s x
      = if x ∈ l.flatMap (fun sc => sc.id :: sc.momentIds) then 0 else s x := by
  induction l generalizing s with
  | nil => simp [transferSuperAux]
  | cons sc l ih =>
    rw [transferSuperAux, List.foldl_cons,
      show List.foldl _ _ l = transferSuperAux vId integr l _ from rfl, ih]
    have hstep : zeroIds (sc.id :: sc.momentIds)
          (vBoundsFoldAux vId (integr sc.id) sc.vBounds s) x
        = if x ∈ sc.id :: sc.momentIds then 0 else s x := by
      rw [zeroIds_apply]
      by_cases hm : x ∈ sc.id :: sc.momentIds
      · simp [hm]
      · simp [hm, vBoundsFoldAux_ne vId (integr sc.id) sc.vBounds x hx]
    rw [hstep, List.flatMap_cons]
    by_cases hm2 : x ∈ l.flatMap fun sc => sc.id :: sc.momentIds
    · rw [if_pos hm2, if_pos (List.mem_append_right _ hm2)]
    · rw [if_neg hm2]
      by_cases hm1 : x ∈ sc.id :: sc.momentIds
      · rw [if_pos hm1, if_pos (List.mem_append_left _ hm1)]
      · rw [if_neg hm1, if_neg fun hmem => by
          rcases List.mem_append.mp hmem with h | h
          · exact hm1 h
          · exact hm2 h]

/-- Helper: the super cluster fold accumulates, at the V cluster of size
`k`, the integrated V-axis values of every super cluster at `k`. -/
theorem transferSuperAux_v (vId : ℕ → ℕ) (hinj : Function.Injective vId)
    (integr : ℕ → ℕ → ℚ) (l : List SuperClusterB) (k : ℕ)
    (hv : ∀ m, vId m ∉ l.flatMap fun sc => sc.id :: sc.momentIds) (s : ℕ → ℚ) :
    transferSuperAux vId integr l s (vId k)
      = s (vId k)
        + (l.map fun sc => ((sc.vBounds.filter fun j => j = k).map (integr sc.id)).sum).sum := by
  induction l generalizing s with
  | nil => simp [transferSuperAux]
  | cons sc l ih =>
    have hv2 : ∀ m, vId m ∉ l.flatMap fun sc => sc.id :: sc.momentIds := fun m hm =>
      hv m (by rw [List.flatMap_cons]; exact List.mem_append_right _ hm)
    have hvk : vId k ∉ sc.id :: sc.momentIds := fun hm =>
      hv k (by rw [List.flatMap_cons]; exact List.mem_append_left _ hm)
    rw [transferSuperAux, List.foldl_cons,
      show List.foldl _ _ l = transferSuperAux vId integr l _ from rfl, ih hv2]
    have hstep : zeroIds (sc.id :: sc.momentIds)
          (vBoundsFoldAux vId (integr sc.id) sc.vBounds s) (vId k)
        = s (vId k) + ((sc.vBounds.filter fun j => j = k).map (integr sc.id)).sum := by
      rw [zeroIds_apply, if_neg hvk, vBoundsFoldAux_v vId hinj]
    rw [hstep, List.map_cons, List.sum_cons]
    ring

/-- Helper: grid rows not recorded as bursting depths are left untouched
by the bursting loop. -/
theorem burstHandler_untouched (net : BurstNetwork) (depths : List ℕ)
    (sol : ℕ → ℕ → ℚ) (x : ℕ) (hx : x ∉ depths) :
    burstHandler net depths sol x = sol x := by
  induction depths generalizing sol with
  | nil => rfl
  | cons d ds ih =>
    rw [burstHandler, List.foldl_cons,
      show List.foldl _ _ ds = burstHandler net ds _ from rfl,
      ih _ fun hmem => hx (List.mem_cons_of_mem _ hmem)]
    have hxd : x ≠ d := fun he => hx (he ▸ List.mem_cons_self d ds)
    simp [hxd]

/-- C8: after the bursting part of `postEventFunction1D`, at a bursting
depth every He, D and T cluster concentration is zero, every PSIMixed
cluster concentration is zero, every PSI super cluster and all four of
its moments are zero, and every V cluster of size `k` is increased by
exactly the previous PSIMixed concentrations of vacancy count `k` plus
the integrated V-axis distribution of the super clusters at `k`;
concentrations at grid points not in the recorded depth list are
unchanged. -/
theorem burstingPostEvent (net : BurstNetwork) (hwf : BurstWF net) (s0 : ℕ → ℚ)
    (depths : List ℕ) (sol : ℕ → ℕ → ℚ) :
    (∀ i ∈ net.heIds ++ net.dIds ++ net.tIds, burstPoint net s0 i = 0)
    ∧ (∀ c ∈ net.mixed, burstPoint net s0 c.id = 0)
    ∧ (∀ sc ∈ net.supers, burstPoint net s0 sc.id = 0
        ∧ ∀ m ∈ sc.momentIds, burstPoint net s0 m = 0)
    ∧ (∀ k, burstPoint net s0 (net.vId k)
        = s0 (net.vId k) + mixedVSum net s0 k + superVSum net s0 k)
    ∧ (∀ x ∉ depths, burstHandler net depths sol x = sol x) := by
  obtain ⟨hnd, hinj, hv⟩ := hwf
  have hvne : ∀ x, x ∈ nonVTouched net → ∀ k, x ≠ net.vId k := fun x hx k he =>
    hv k (by rw [← he]; exact hx)
  have hin_hdt : ∀ i ∈ net.heIds ++ net.dIds ++ net.tIds, i ∈ nonVTouched net := fun i hi =>
    List.mem_append_left _ (List.mem_append_left _ hi)
  have hin_mix : ∀ c ∈ net.mixed, c.id ∈ nonVTouched net := fun c hc =>
    List.mem_append_left _
      (List.mem_append_right _ (List.mem_map_of_mem MixedClusterB.id hc))
  have hin_sup : ∀ x, x ∈ (net.supers.flatMap fun sc => sc.id :: sc.momentIds) →
      x ∈ nonVTouched net := fun x hx => List.mem_append_right _ hx
  refine ⟨?_, ?_, ?_, ?_, ?_⟩
  · intro i hi
    have hxv : ∀ k, i ≠ net.vId k := hvne i (hin_hdt i hi)
    rw [burstPoint_def, transferSuperAux_ne net.vId (net.integratedV s0) net.supers i hxv]
    by_cases hsup : i ∈ net.supers.flatMap fun sc => sc.id :: sc.momentIds
    · rw [if_pos hsup]
    · rw [if_neg hsup, transferMixedAux_ne net.vId net.mixed i hxv]
      by_cases hmix : i ∈ net.mixed.map MixedClusterB.id
      · rw [if_pos hmix]
      · rw [if_neg hmix, zeroIds_apply, zeroIds_apply, zeroIds_apply]
        rcases List.mem_append.mp hi with hi2 | hiT
        · rcases List.mem_append.mp hi2 with hiH | hiD
          · simp [hiH]
          · simp [hiD]
        · simp [hiT]
  · intro c hc
    have hxv : ∀ k, c.id ≠ net.vId k := hvne c.id (hin_mix c hc)
    rw [burstPoint_def, transferSuperAux_ne net.vId (net.integratedV s0) net.supers c.id hxv]
    by_cases hsup : c.id ∈ net.supers.flatMap fun sc => sc.id :: sc.momentIds
    · rw [if_pos hsup]
    · rw [if_neg hsup, transferMixedAux_ne net.vId net.mixed c.id hxv,
        if_pos (List.mem_map_of_mem MixedClusterB.id hc)]
  · intro sc hsc
    have hself : sc.id ∈ net.supers.flatMap fun sc => sc.id :: sc.momentIds :=
      List.mem_flatMap.mpr ⟨sc, hsc, List.mem_cons_self _ _⟩
    constructor
    · rw [burstPoint_def, transferSuperAux_ne net.vId (net.integratedV s0) net.supers sc.id
        (hvne sc.id (hin_sup sc.id hself)), if_pos hself]
    · intro m hm
      have hmem : m ∈ net.supers.flatMap fun sc => sc.id :: sc.momentIds :=
        List.mem_flatMap.mpr ⟨sc, hsc, List.mem_cons_of_mem _ hm⟩
      rw [burstPoint_def, transferSuperAux_ne net.vId (net.integratedV s0) net.supers m
        (hvne m (hin_sup m hmem)), if_pos hmem]
  · intro k
    have hvnotsup : ∀ m, net.vId m ∉ net.supers.flatMap fun sc => sc.id :: sc.momentIds :=
      fun m hm => hv m (hin_sup _ hm)
    have hmixnd : (net.mixed.map MixedClusterB.id).Nodup :=
      (List.Nodup.of_append_left hnd).of_append_right
    have hdisjmix : ∀ c ∈ net.mixed, ∀ m, net.vId m ≠ c.id := fun c hc m he =>
      hv m (by rw [he]; exact hin_mix c hc)
    rw [burstPoint_def,
      transferSuperAux_v net.vId hinj (net.integratedV s0) net.supers k hvnotsup,
      transferMixedAux_v net.vId hinj net.mixed k hdisjmix hmixnd]
    have hvhdt : net.vId k ∉ net.heIds ++ net.dIds ++ net.tIds := fun hm =>
      hv k (hin_hdt _ hm)
    have hs3v : zeroIds net.tIds (zeroIds net.dIds (zeroIds net.heIds s0)) (net.vId k)
        = s0 (net.vId k) := by
      have h1 : net.vId k ∉ net.tIds := fun hm => hvhdt (List.mem_append_right _ hm)
      have h2 : net.vId k ∉ net.dIds := fun hm =>
        hvhdt (List.mem_append_left _ (List.mem_append_right _ hm))
      have h3 : net.vId k ∉ net.heIds := fun hm =>
        hvhdt (List.mem_append_left _ (List.mem_append_left _ hm))
      rw [zeroIds_apply, if_neg h1, zeroIds_apply, if_neg h2, zeroIds_apply, if_neg h3]
    have hdisjHdtMix : (net.heIds ++ net.dIds ++ net.tIds).Disjoint
        (net.mixed.map MixedClusterB.id) :=
      List.disjoint_of_nodup_append (List.Nodup.of_append_left hnd)
    have hs3mix : ∀ c ∈ net.mixed,
        zeroIds net.tIds (zeroIds net.dIds (zeroIds net.heIds s0)) c.id = s0 c.id := by
      intro c hc
      have hcid : c.id ∉ net.heIds ++ net.dIds ++ net.tIds := fun hm =>
        hdisjHdtMix hm (List.mem_map_of_mem MixedClusterB.id hc)
      have h1 : c.id ∉ net.tIds := fun hm => hcid (List.mem_append_right _ hm)
      have h2 : c.id ∉ net.dIds := fun hm =>
        hcid (List.mem_append_left _ (List.mem_append_right _ hm))
      have h3 : c.id ∉ net.heIds := fun hm =>
        hcid (List.mem_append_left _ (List.mem_append_left _ hm))
      rw [zeroIds_apply, if_neg h1, zeroIds_apply, if_neg h2, zeroIds_apply, if_neg h3]
    have hmapeq : ((net.mixed.filter fun c => c.vSize = k).map fun c =>
          zeroIds net.tIds (zeroIds net.dIds (zeroIds net.heIds s0)) c.id).sum
        = ((net.mixed.filter fun c => c.vSize = k).map fun c => s0 c.id).sum := by
      congr 1
      exact List.map_congr_left fun c hc => hs3mix c (List.mem_of_mem_filter hc)
    rw [hs3v, hmapeq, mixedVSum, superVSum]
  · intro x hx
    exact burstHandler_untouched net depths sol x hx

/-- C8 witness: the concrete demo network is well-formed (the V-cluster
id map `20 + k` is injective and avoids all written ids), and the V-row
balance of the theorem holds on it. -/
theorem burstingPostEvent_witness :
    BurstWF demoBurstNet
    ∧ (∀ k, burstPoint demoBurstNet (fun i => (i : ℚ)) (demoBurstNet.vId k)
        = (fun i => (i : ℚ)) (demoBurstNet.vId k)
          + mixedVSum demoBurstNet (fun i => (i : ℚ)) k
          + superVSum demoBurstNet (fun i => (i : ℚ)) k) := by
  have hwf : BurstWF demoBurstNet := by
    refine ⟨by decide, fun a b hab => by
      have h20 : 20 + a = 20 + b := hab
      omega, fun k => ?_⟩
    have : nonVTouched demoBurstNet = [1, 2, 3, 4, 5, 11, 6, 7, 8, 9, 10] := rfl
    rw [this]
    intro hm
    simp [demoBurstNet] at hm
    omega
  exact ⟨hwf, (burstingPostEvent demoBurstNet hwf (fun i => (i : ℚ)) [0]
    (fun _ i => (i : ℚ))).2.2.2.1⟩

/-! ## C5 and C6: the event function switches -/

/-- C5: with surface movement enabled, `fvalue[0]` is returned zero iff the
updated interstitial counter exceeds the density threshold
`(62.8 - v_init) * Dx` at the first interior point, `fvalue[1]` is
returned zero iff the counter does not exceed the threshold and is below
`-threshold/10`, and otherwise both switches are returned at 1 (nonzero). -/
theorem eventSurfaceSwitches (p : EventIn) (h : p.moveSurface = true) :
    ((eventFunction1D p).f0 = 0 ↔ updatedNInterstitial p.surface > densityThreshold p.surface)
    ∧ ((eventFunction1D p).f1 = 0 ↔
        (¬ updatedNInterstitial p.surface > densityThreshold p.surface
          ∧ updatedNInterstitial p.surface < -densityThreshold p.surface / 10))
    ∧ (¬ updatedNInterstitial p.surface > densityThreshold p.surface →
        ¬ updatedNInterstitial p.surface < -densityThreshold p.surface / 10 →
        (eventFunction1D p).f0 = 1 ∧ (eventFunction1D p).f1 = 1) := by
  have e0 : (eventFunction1D p).f0 = (surfaceSwitches p.surface).1 := by
    simp [eventFunction1D, h]
  have e1 : (eventFunction1D p).f1 = (surfaceSwitches p.surface).2 := by
    simp [eventFunction1D, h]
  by_cases h1 : updatedNInterstitial p.surface > densityThreshold p.surface
  · have hf0 : (eventFunction1D p).f0 = 0 := by rw [e0, surfaceSwitches, if_pos h1]
    have hf1 : (eventFunction1D p).f1 = 1 := by rw [e1, surfaceSwitches, if_pos h1]
    refine ⟨⟨fun _ => h1, fun _ => hf0⟩, ⟨?_, ?_⟩, fun hn _ => absurd h1 hn⟩
    · intro h10
      rw [hf1] at h10
      exact absurd h10 one_ne_zero
    · rintro ⟨hn, _⟩
      exact absurd h1 hn
  · by_cases h2 : updatedNInterstitial p.surface < -densityThreshold p.surface / 10
    · have hf0 : (eventFunction1D p).f0 = 1 := by
        rw [e0, surfaceSwitches, if_neg h1, if_pos h2]
      have hf1 : (eventFunction1D p).f1 = 0 := by
        rw [e1, surfaceSwitches, if_neg h1, if_pos h2]
      refine ⟨⟨?_, fun hc => absurd hc h1⟩, ⟨fun _ => ⟨h1, h2⟩, fun _ => hf1⟩,
        fun _ hn2 => absurd h2 hn2⟩
      intro h10
      rw [hf0] at h10
      exact absurd h10 one_ne_zero
    · have hf0 : (eventFunction1D p).f0 = 1 := by
        rw [e0, surfaceSwitches, if_neg h1, if_neg h2]
      have hf1 : (eventFunction1D p).f1 = 1 := by
        rw [e1, surfaceSwitches, if_neg h1, if_neg h2]
      refine ⟨⟨?_, fun hc => absurd hc h1⟩, ⟨?_, fun hc => absurd hc.2 h2⟩,
        fun _ _ => ⟨hf0, hf1⟩⟩
      · intro h10
        rw [hf0] at h10
        exact absurd h10 one_ne_zero
      · intro h10
        rw [hf1] at h10
        exact absurd h10 one_ne_zero

/-- C5 witness: a concrete event input with surface movement enabled, whose
interstitial counter 100 exceeds the threshold 62.8. -/
theorem eventSurfaceSwitches_witness :
    demoEvent.moveSurface = true
    ∧ ((eventFunction1D demoEvent).f0 = 0 ↔
        updatedNInterstitial demoEvent.surface > densityThreshold demoEvent.surface) :=
  ⟨rfl, (eventSurfaceSwitches demoEvent rfl).1⟩

/-- C6 (amended): the two surface switches are mutually exclusive — they
never both return zero — but the bursting switch is set independently, so
up to two of the three switches can return zero simultaneously; the
post-event guard therefore only throws when all three fire, which cannot
happen. -/
theorem surfaceSwitchesExclusive (p : EventIn) :
    ¬((eventFunction1D p).f0 = 0 ∧ (eventFunction1D p).f1 = 0)
    ∧ firedCount (eventFunction1D p) ≤ 2
    ∧ postEventThrows (firedCount (eventFunction1D p)) = false := by
  have hsw : ((eventFunction1D p).f0 = 0 ∧ (eventFunction1D p).f1 = 1)
      ∨ ((eventFunction1D p).f0 = 1 ∧ (eventFunction1D p).f1 = 0)
      ∨ ((eventFunction1D p).f0 = 1 ∧ (eventFunction1D p).f1 = 1) := by
    rcases hm : p.moveSurface with _ | _
    · right; right
      exact ⟨by simp [eventFunction1D, hm], by simp [eventFunction1D, hm]⟩
    · have e0 : (eventFunction1D p).f0 = (surfaceSwitches p.surface).1 := by
        simp [eventFunction1D, hm]
      have e1 : (eventFunction1D p).f1 = (surfaceSwitches p.surface).2 := by
        simp [eventFunction1D, hm]
      rw [e0, e1, surfaceSwitches]
      split_ifs <;> simp
  have hf2 : (eventFunction1D p).f2 = 0 ∨ (eventFunction1D p).f2 = 1 := by
    have e2 : (eventFunction1D p).f2
        = if p.burstBubbles && !(depthPositions p).isEmpty then (0 : ℚ) else 1 := rfl
    rw [e2]
    rcases hb : p.burstBubbles && !(depthPositions p).isEmpty with _ | _
    · right
      rw [if_neg (by simp [hb])]
    · left
      rw [if_pos (by simp [hb])]
  rcases hsw with ⟨h0, h1⟩ | ⟨h0, h1⟩ | ⟨h0, h1⟩ <;>
    rcases hf2 with h2 | h2 <;>
    refine ⟨?_, ?_, ?_⟩ <;>
    simp [firedCount, postEventThrows, h0, h1, h2]

/-- C6 witness: the post-event guard does not throw on a concrete event
evaluation. -/
theorem surfaceSwitchesExclusive_witness :
    postEventThrows (firedCount (eventFunction1D demoEvent)) = false :=
  (surfaceSwitchesExclusive demoEvent).2.2

/-- C6 counterexample: a concrete input where the surface-advance switch
and the bursting switch both return zero, so two events fire in the same
evaluation — more than one. -/
theorem eventTwoSwitchesFire :
    (eventFunction1D demoEvent).f0 = 0 ∧ (eventFunction1D demoEvent).f2 = 0
    ∧ firedCount (eventFunction1D demoEvent) = 2
    ∧ ¬ firedCount (eventFunction1D demoEvent) ≤ 1 := by
  have hupd : updatedNInterstitial demoEvent.surface = 100 := by
    norm_num [updatedNInterstitial, demoEvent]
  have hthr : densityThreshold demoEvent.surface = 314 / 5 := by
    have g1 : gridAt demoEvent.surface.grid 1 = 1 := rfl
    have g2 : gridAt demoEvent.surface.grid 2 = 2 := rfl
    rw [densityThreshold]
    rw [show demoEvent.surface.surfacePos = 0 from rfl]
    rw [g1, g2, show demoEvent.surface.initialVConc = 0 from rfl]
    norm_num
  have h0 : (eventFunction1D demoEvent).f0 = 0 := by
    have e0 : (eventFunction1D demoEvent).f0 = (surfaceSwitches demoEvent.surface).1 := by
      simp [eventFunction1D, show demoEvent.moveSurface = true from rfl]
    rw [e0, surfaceSwitches, hupd, hthr, if_pos (by norm_num : (100 : ℚ) > 314 / 5)]
  have h2 : (eventFunction1D demoEvent).f2 = 0 := rfl
  have h1 : (eventFunction1D demoEvent).f1 = 1 := by
    have e1 : (eventFunction1D demoEvent).f1 = (surfaceSwitches demoEvent.surface).2 := by
      simp [eventFunction1D, show demoEvent.moveSurface = true from rfl]
    rw [e1, surfaceSwitches, hupd, hthr, if_pos (by norm_num : (100 : ℚ) > 314 / 5)]
  refine ⟨h0, h2, ?_, ?_⟩ <;> simp [firedCount, h0, h1, h2]

/-! ## C7: the moving-up post-event loop -/

/-- Helper: one unfolding of the compiled moving-up loop. -/
theorem movingUpLoop_succ (fuel : ℕ) (threshold : ℚ) (surfacePos : ℤ) (nI : ℚ) (n : ℕ) :
    movingUpLoop (fuel + 1) threshold surfacePos nI n
      = if nI > threshold then
          movingUpLoop fuel threshold (surfacePos - 1) (nI - threshold) (n + 1)
        else (surfacePos, nI, n) := rfl

/-- Helper: one unfolding of the spec-side moving-up loop. -/
theorem movingUpSpecLoop_succ (grid : List ℚ) (v : ℚ) (fuel : ℕ) (sp : ℤ) (nI : ℚ) (n : ℕ) :
    movingUpSpecLoop grid v (fuel + 1) sp nI n
      = if nI > (314 / 5 - v) * (gridAt grid (sp + 2).toNat - gridAt grid (sp + 1).toNat) then
          movingUpSpecLoop grid v fuel (sp - 1)
            (nI - (314 / 5 - v) * (gridAt grid (sp + 2).toNat - gridAt grid (sp + 1).toNat)) (n + 1)
        else (sp, nI, n) := rfl

/-- C7: the compiled moving-up loop freezes the threshold computed before
the loop (the inner declaration shadows the outer variable), so on the
nonuniform grid `demoGrid` with `nInterstitial = 200` it crosses one grid
point and stops at a counter of 74.4, which still exceeds the threshold
62.8 recomputed at the new surface position; the loop the spec describes
crosses two grid points and stops at 11.6. -/
theorem movingUpThresholdFrozen :
    movingUpLoop 3 ((314 / 5 - 0) * (gridAt demoGrid 4 - gridAt demoGrid 3)) 2 200 0
      = (1, 372 / 5, 1)
    ∧ movingUpSpecLoop demoGrid 0 3 2 200 0 = (0, 58 / 5, 2)
    ∧ (372 / 5 : ℚ) > (314 / 5 - 0) * (gridAt demoGrid 3 - gridAt demoGrid 2) := by
  have g2 : gridAt demoGrid 2 = 2 := rfl
  have g3 : gridAt demoGrid 3 = 3 := rfl
  have g4 : gridAt demoGrid 4 = 5 := rfl
  refine ⟨?_, ?_, ?_⟩
  · rw [g3, g4, show ((314 / 5 - 0 : ℚ)) * (5 - 3) = 628 / 5 by norm_num]
    rw [show (3 : ℕ) = 2 + 1 from rfl, movingUpLoop_succ,
      if_pos (by norm_num : (200 : ℚ) > 628 / 5)]
    rw [show (2 : ℕ) = 1 + 1 from rfl, movingUpLoop_succ,
      if_neg (by norm_num : ¬(200 - 628 / 5 : ℚ) > 628 / 5)]
    norm_num [Prod.ext_iff]
  · rw [show (3 : ℕ) = 2 + 1 from rfl, movingUpSpecLoop_succ]
    rw [show (((2 : ℤ) + 2).toNat) = 4 from rfl, show (((2 : ℤ) + 1).toNat) = 3 from rfl,
      g3, g4, show ((314 / 5 - 0 : ℚ)) * (5 - 3) = 628 / 5 by norm_num,
      if_pos (by norm_num : (200 : ℚ) > 628 / 5)]
    rw [show (2 : ℕ) = 1 + 1 from rfl, movingUpSpecLoop_succ]
    rw [show (((2 : ℤ) - 1 + 2).toNat) = 3 from rfl, show (((2 : ℤ) - 1 + 1).toNat) = 2 from rfl,
      g2, g3, show ((314 / 5 - 0 : ℚ)) * (3 - 2) = 314 / 5 by norm_num,
      if_pos (by norm_num : (200 - 628 / 5 : ℚ) > 314 / 5)]
    rw [show (1 : ℕ) = 0 + 1 from rfl, movingUpSpecLoop_succ]
    rw [show (((2 : ℤ) - 1 - 1 + 2).toNat) = 2 from rfl,
      show (((2 : ℤ) - 1 - 1 + 1).toNat) = 1 from rfl,
      show gridAt demoGrid 1 = 1 from rfl, g2,
      show ((314 / 5 - 0 : ℚ)) * (2 - 1) = 314 / 5 by norm_num,
      if_neg (by norm_num : ¬(200 - 628 / 5 - 314 / 5 : ℚ) > 314 / 5)]
    norm_num [Prod.ext_iff]
  · rw [g2, g3]
    norm_num

/-! ## C1 and C2: trap mutation -/

/-- Helper: the sequential three-store firing step adds its delta
pointwise at every buffer entry. -/
theorem tmStep_apply (iId : ℕ) (conc : ℕ → ℚ) (o : ℕ → ℚ) (r : TrapMutationRule) (x : ℕ) :
    tmStep iId conc o r x = o x + ruleDelta iId conc r x := by
  simp only [tmStep, updateAt, ruleDelta]
  split_ifs <;> simp_all <;> ring

/-- Helper: the trap-mutation fold is the pointwise sum of the firing
deltas. -/
theorem tmFold_apply (iId : ℕ) (conc : ℕ → ℚ) (l : List TrapMutationRule)
    (out : ℕ → ℚ) (x : ℕ) :
    l.foldl (tmStep iId conc) out x = out x + (l.map fun r => ruleDelta iId conc r x).sum := by
  induction l generalizing out with
  | nil => simp
  | cons r l ih =>
    rw [List.foldl_cons, ih, tmStep_apply, List.map_cons, List.sum_cons, add_assoc]

/-- Helper: `computeTrapMutation` evaluated at one buffer entry. -/
theorem computeTrapMutation_apply (h : TrapMutationHandlerM) (xi : ℕ) (conc : ℕ → ℚ)
    (out : ℕ → ℚ) (x : ℕ) :
    computeTrapMutation h xi conc out x
      = out x + ((h.rulesAt xi).map fun r => ruleDelta h.iId conc r x).sum :=
  tmFold_apply h.iId conc (h.rulesAt xi) out x

/-- Helper: a list sum collapsing to its unique nonzero term. -/
theorem sum_map_eq_of_single {α : Type} (l : List α) (hnd : l.Nodup) (f : α → ℚ) (r : α)
    (hr : r ∈ l) (h0 : ∀ q ∈ l, q ≠ r → f q = 0) : (l.map f).sum = f r := by
  induction l with
  | nil => cases hr
  | cons a l ih =>
    rw [List.map_cons, List.sum_cons]
    rcases List.mem_cons.mp hr with rfl | hr₂
    · have hz : ∀ q ∈ l, f q = 0 := fun q hq =>
        h0 q (List.mem_cons_of_mem _ hq)
          (by rintro rfl; exact (List.nodup_cons.mp hnd).1 hq)
      rw [List.sum_eq_zero fun x hx => by
        obtain ⟨q, hq, rfl⟩ := List.mem_map.mp hx; exact hz q hq]
      ring
    · have ha : a ≠ r := by
        rintro rfl
        exact (List.nodup_cons.mp hnd).1 hr₂
      rw [h0 a (List.mem_cons_self a l) ha, zero_add]
      exact ih (List.nodup_cons.mp hnd).2 hr₂
        fun q hq hne => h0 q (List.mem_cons_of_mem _ hq) hne

/-- Helper: the exact values `computeTrapMutation` leaves in an initially
zero output buffer: `-k*C` at each firing He id, `+k*C` at its HeV id,
and the total of all firings at the interstitial id. -/
theorem tm_values (h : TrapMutationHandlerM) (xi : ℕ) (conc : ℕ → ℚ)
    (hwf : TrapMutationWF h xi) :
    (∀ r ∈ h.rulesAt xi,
      computeTrapMutation h xi conc (fun _ => 0) r.heId = -(r.rate * conc r.heId)
      ∧ computeTrapMutation h xi conc (fun _ => 0) r.heVId = r.rate * conc r.heId)
    ∧ computeTrapMutation h xi conc (fun _ => 0) h.iId
        = ((h.rulesAt xi).map fun r => r.rate * conc r.heId).sum := by
  obtain ⟨hnd1, hnd2, hcross, hiid⟩ := hwf
  have hndl : (h.rulesAt xi).Nodup := List.Nodup.of_map _ hnd1
  refine ⟨fun r hr => ⟨?_, ?_⟩, ?_⟩
  · rw [computeTrapMutation_apply]
    rw [sum_map_eq_of_single _ hndl _ r hr ?side]
    case side =>
      intro q hq hqr
      have ha : r.heId ≠ q.heVId := hcross r hr q hq
      have hb : r.heId ≠ h.iId := Ne.symm (hiid r hr).1
      have hc : r.heId ≠ q.heId := fun he =>
        hqr (List.inj_on_of_nodup_map hnd1 hq hr he.symm)
      simp [ruleDelta, ha, hb, hc]
    have ha : r.heId ≠ r.heVId := hcross r hr r hr
    have hb : r.heId ≠ h.iId := Ne.symm (hiid r hr).1
    simp [ruleDelta, ha, hb]
  · rw [computeTrapMutation_apply]
    rw [sum_map_eq_of_single _ hndl _ r hr ?side2]
    case side2 =>
      intro q hq hqr
      have ha : r.heVId ≠ q.heVId := fun he =>
        hqr (List.inj_on_of_nodup_map hnd2 hq hr he.symm)
      have hb : r.heVId ≠ h.iId := Ne.symm (hiid r hr).2
      have hc : r.heVId ≠ q.heId := Ne.symm (hcross q hq r hr)
      simp [ruleDelta, ha, hb, hc]
    have hb : r.heVId ≠ h.iId := Ne.symm (hiid r hr).2
    have hc : r.heVId ≠ r.heId := Ne.symm (hcross r hr r hr)
    simp [ruleDelta, hb, hc]
  · rw [computeTrapMutation_apply, zero_add]
    congr 1
    refine List.map_congr_left fun q hq => ?_
    have ha : h.iId ≠ q.heVId := (hiid q hq).2
    have hc : h.iId ≠ q.heId := (hiid q hq).1
    simp [ruleDelta, ha, hc]

/-- Helper: sum of negated list values. -/
theorem sum_map_neg {α : Type} (l : List α) (f : α → ℚ) :
    (l.map fun a => -f a).sum = -(l.map f).sum := by
  induction l with
  | nil => simp
  | cons a l ih => simp [ih]; ring

/-- C1 counterexample: with two helium sizes firing at one grid point
(unit rates, concentrations 1 and 3), the interstitial entry receives the
sum 4 of both contributions, so `out[I] = -out[He_s]` fails for the first
size even though the buffer started at zero. -/
theorem trapMutationIBalanceFails :
    computeTrapMutation ⟨0, fun _ => [⟨1, 2, 1⟩, ⟨3, 4, 1⟩]⟩ 1 (fun i => (i : ℚ))
        (fun _ => 0) 0 = 4
    ∧ computeTrapMutation ⟨0, fun _ => [⟨1, 2, 1⟩, ⟨3, 4, 1⟩]⟩ 1 (fun i => (i : ℚ))
        (fun _ => 0) 1 = -1
    ∧ (4 : ℚ) ≠ -(-1) := by
  have hwf : TrapMutationWF ⟨0, fun _ => [⟨1, 2, 1⟩, ⟨3, 4, 1⟩]⟩ 1 := by
    refine ⟨by decide, by decide, by decide, by decide⟩
  obtain ⟨hv, hi⟩ := tm_values ⟨0, fun _ => [⟨1, 2, 1⟩, ⟨3, 4, 1⟩]⟩ 1 (fun i => (i : ℚ)) hwf
  refine ⟨?_, ?_, by norm_num⟩
  · rw [hi]
    norm_num
  · have := (hv ⟨1, 2, 1⟩ (by simp)).1
    rw [this]
    norm_num

/-- C1 (amended): with the output buffer initially zero and a well-formed
rule set, the contributions of every firing size `s` satisfy
`out[He_s] + out[HeV_{s,v}] = 0`, and `out[I]` equals the negated *sum* of
`out[He_s]` over all firing sizes (so it equals `-out[He_s]` exactly when
a single size fires). -/
theorem trapMutationBalance (h : TrapMutationHandlerM) (xi : ℕ) (conc : ℕ → ℚ)
    (hwf : TrapMutationWF h xi) :
    (∀ r ∈ h.rulesAt xi,
      computeTrapMutation h xi conc (fun _ => 0) r.heId
        + computeTrapMutation h xi conc (fun _ => 0) r.heVId = 0)
    ∧ computeTrapMutation h xi conc (fun _ => 0) h.iId
      = -((h.rulesAt xi).map fun r =>
          computeTrapMutation h xi conc (fun _ => 0) r.heId).sum := by
  obtain ⟨hv, hi⟩ := tm_values h xi conc hwf
  constructor
  · intro r hr
    rw [(hv r hr).1, (hv r hr).2]
    ring
  · rw [hi, List.map_congr_left fun r hr => (hv r hr).1, sum_map_neg, neg_neg]

/-- C1 witness: the W110 configuration at grid point 1 is well-formed and
every firing size balances its He and HeV contributions exactly. -/
theorem trapMutationBalance_witness :
    TrapMutationWF w110Handler 1
    ∧ (∀ r ∈ w110Handler.rulesAt 1,
        computeTrapMutation w110Handler 1 (fun i => (i : ℚ)) (fun _ => 0) r.heId
          + computeTrapMutation w110Handler 1 (fun i => (i : ℚ)) (fun _ => 0) r.heVId = 0) :=
  ⟨⟨by decide, by decide, by decide, by decide⟩,
    (trapMutationBalance w110Handler 1 (fun i => (i : ℚ))
      ⟨by decide, by decide, by decide, by decide⟩).1⟩

/-- Helper: the Jacobian stamping of the flattened triples emitted for a
rule list. -/
theorem stamp_flat (iId : ℕ) (l : List TrapMutationRule) :
    stampTrapMutation (l.flatMap fun r => [r.heId, r.heVId, iId])
        (l.flatMap fun r => [-r.rate, r.rate, r.rate]) l.length
      = l.flatMap fun r =>
          [(r.heId, r.heId, -r.rate), (r.heVId, r.heId, r.rate), (iId, r.heId, r.rate)] := by
  induction l with
  | nil => rfl
  | cons r l ih =>
    simp only [List.flatMap_cons, List.cons_append, List.nil_append, List.length_cons]
    rw [stampTrapMutation, ih]

/-- C2: `computePartialsForTrapMutation` with the caller's stamping loop
emits, per mutating helium cluster, exactly three Jacobian entries in the
helium cluster's column — the diagonal `(He, He)` at `-k_tm`, `(HeV, He)`
at `+k_tm` and `(I, He)` at `+k_tm` — and in the W110 configuration at
1000 K and grid point 1 the index triples at slots 0 and 3 are `{8,17,0}`
and `{11,20,0}` with values `-9.67426e13, +9.67426e13, +9.67426e13`. -/
theorem trapMutationPartials :
    (∀ (h : TrapMutationHandlerM) (xi : ℕ),
      stampTrapMutation (computePartialsForTrapMutation h xi).1
          (computePartialsForTrapMutation h xi).2.1
          (computePartialsForTrapMutation h xi).2.2
        = (h.rulesAt xi).flatMap fun r =>
            [(r.heId, r.heId, -r.rate), (r.heVId, r.heId, r.rate), (h.iId, r.heId, r.rate)])
    ∧ (computePartialsForTrapMutation w110Handler 1).1.getD 0 0 = 8
    ∧ (computePartialsForTrapMutation w110Handler 1).1.getD 1 0 = 17
    ∧ (computePartialsForTrapMutation w110Handler 1).1.getD 2 0 = 0
    ∧ (computePartialsForTrapMutation w110Handler 1).1.getD 9 0 = 11
    ∧ (computePartialsForTrapMutation w110Handler 1).1.getD 10 0 = 20
    ∧ (computePartialsForTrapMutation w110Handler 1).1.getD 11 0 = 0
    ∧ (computePartialsForTrapMutation w110Handler 1).2.1.getD 0 0 = -w110Rate1000
    ∧ (computePartialsForTrapMutation w110Handler 1).2.1.getD 1 0 = w110Rate1000
    ∧ (computePartialsForTrapMutation w110Handler 1).2.1.getD 2 0 = w110Rate1000
    ∧ (computePartialsForTrapMutation w110Handler 1).2.1.getD 12 0 = -w110Rate1000
    ∧ (computePartialsForTrapMutation w110Handler 1).2.1.getD 13 0 = w110Rate1000
    ∧ (computePartialsForTrapMutation w110Handler 1).2.1.getD 14 0 = w110Rate1000 := by
  refine ⟨fun h xi => stamp_flat h.iId (h.rulesAt xi),
    by decide, by decide, by decide, by decide, by decide, by decide,
    rfl, rfl, rfl, rfl, rfl, rfl⟩

/-- C4 witness: the call count of a concrete pass is at most one. -/
theorem temperatureRecomputedOnce_witness :
    (temperatureSweep ⟨4, 0, 0, 4⟩ (fun _ => 500) 1000).2 ≤ 1 :=
  (temperatureRecomputedOnce ⟨4, 0, 0, 4⟩ 500 1000).2.1

/-- C4 counterexample: a pass whose uniform temperature already equals the
cached temperature performs zero `setTemperature` calls, not one. -/
theorem temperatureSweepNotOnce :
    (temperatureSweep ⟨4, 0, 0, 4⟩ (fun _ => 1000) 1000).2 = 0 ∧ (0 : ℕ) ≠ 1 := by
  constructor
  · rw [temperatureSweep, tempSweepChar, temperatureEqual_self]
    simp
  · norm_num

end Xolotl
